import Mathlib

/-!
Verification of the sentinelq edge surveillance node against its
natural-language specification.

The development shallowly embeds the Python sources:
  src/edge/survi/python/main.py            (router, analysis worker, event FSM,
                                            finalize step of the capture loop)
  src/edge/survi/python/segment_buffer.py  (SegmentRingBuffer)

Machine floats are modelled as rationals, wall-clock timestamps as rationals,
file paths as strings, and on-disk side effects as explicit action traces.
-/

namespace SentinelQ

/-! ## Router (main.py, _router, lines 297-329)

The Python function receives the rolling averages of brightness, blur
variance, cpu percent and network latency plus the cloud-configured flag,
builds an ordered list of reason tags, and picks a decision by membership
tests on that list.  The embedding below mirrors the sequential appends
and the membership tests literally. -/

structure RouterCfg where
  brightnessMin : ℚ
  blurVarMin : ℚ
  cpuHighPct : ℚ
  netSlowMs : ℚ

/-- The network part of the reason list (main.py lines 313-319): advisory
tags recorded after the quality and compute tags. -/
def netTags (c : RouterCfg) (netMs : ℚ) (cloudOk : Bool) : List String :=
  if ¬ cloudOk then ["net_unconfigured"]
  else if netMs < 0 then ["net_down"]
  else if c.netSlowMs < netMs then ["net_slow"] else []

/-- The reason list, built in the order the Python appends run
(main.py lines 306-319). -/
def routerReasons (c : RouterCfg) (b bl cpu netMs : ℚ) (cloudOk : Bool) :
    List String :=
  (if b < c.brightnessMin then ["low_brightness"] else []) ++
  (if bl < c.blurVarMin then ["blurry"] else []) ++
  (if 0 ≤ cpu ∧ c.cpuHighPct < cpu then ["cpu_high"] else []) ++
  netTags c netMs cloudOk

def router (c : RouterCfg) (b bl cpu netMs : ℚ) (cloudOk : Bool) :
    String × List String :=
  let reasons := routerReasons c b bl cpu netMs cloudOk
  if "low_brightness" ∈ reasons ∧ "blurry" ∈ reasons then
    ("RECORD_ONLY", reasons)
  else if "cpu_high" ∈ reasons ∨ "blurry" ∈ reasons ∨ "low_brightness" ∈ reasons then
    ("RUN_CLOUD", reasons)
  else
    ("RUN_LOCAL", reasons)

/-- Helper: every network tag is one of the three advisory strings. -/
theorem mem_netTags (c : RouterCfg) (netMs : ℚ) (cloudOk : Bool) (s : String)
    (h : s ∈ netTags c netMs cloudOk) :
    s = "net_unconfigured" ∨ s = "net_down" ∨ s = "net_slow" := by
  unfold netTags at h
  split_ifs at h <;> simp_all

/-- Helper: characterisation of membership in the reason list. -/
theorem mem_routerReasons (c : RouterCfg) (b bl cpu netMs : ℚ) (cloudOk : Bool)
    (s : String) :
    s ∈ routerReasons c b bl cpu netMs cloudOk ↔
      ((b < c.brightnessMin ∧ s = "low_brightness") ∨
       (bl < c.blurVarMin ∧ s = "blurry") ∨
       ((0 ≤ cpu ∧ c.cpuHighPct < cpu) ∧ s = "cpu_high") ∨
       s ∈ netTags c netMs cloudOk) := by
  unfold routerReasons
  by_cases h1 : b < c.brightnessMin <;>
    by_cases h2 : bl < c.blurVarMin <;>
      by_cases h3 : 0 ≤ cpu ∧ c.cpuHighPct < cpu <;>
        simp [h1, h2, h3]

/-- Helper: the low_brightness tag is present exactly when the brightness
average is below the configured minimum. -/
theorem lb_mem_iff (c : RouterCfg) (b bl cpu netMs : ℚ) (cloudOk : Bool) :
    "low_brightness" ∈ routerReasons c b bl cpu netMs cloudOk ↔
      b < c.brightnessMin := by
  rw [mem_routerReasons]
  constructor
  · rintro (⟨h, _⟩ | ⟨_, h⟩ | ⟨_, h⟩ | h)
    · exact h
    · exact absurd h (by decide)
    · exact absurd h (by decide)
    · rcases mem_netTags c netMs cloudOk _ h with h | h | h <;>
        exact absurd h (by decide)
  · exact fun h => Or.inl ⟨h, rfl⟩

/-- Helper: the blurry tag is present exactly when the blur-variance
average is below the configured minimum. -/
theorem blurry_mem_iff (c : RouterCfg) (b bl cpu netMs : ℚ) (cloudOk : Bool) :
    "blurry" ∈ routerReasons c b bl cpu netMs cloudOk ↔ bl < c.blurVarMin := by
  rw [mem_routerReasons]
  constructor
  · rintro (⟨_, h⟩ | ⟨h, _⟩ | ⟨_, h⟩ | h)
    · exact absurd h (by decide)
    · exact h
    · exact absurd h (by decide)
    · rcases mem_netTags c netMs cloudOk _ h with h | h | h <;>
        exact absurd h (by decide)
  · exact fun h => Or.inr (Or.inl ⟨h, rfl⟩)

/-- Helper: the cpu_high tag is present exactly when the cpu average is
nonnegative and above the configured threshold. -/
theorem cpu_mem_iff (c : RouterCfg) (b bl cpu netMs : ℚ) (cloudOk : Bool) :
    "cpu_high" ∈ routerReasons c b bl cpu netMs cloudOk ↔
      0 ≤ cpu ∧ c.cpuHighPct < cpu := by
  rw [mem_routerReasons]
  constructor
  · rintro (⟨_, h⟩ | ⟨_, h⟩ | ⟨h, _⟩ | h)
    · exact absurd h (by decide)
    · exact absurd h (by decide)
    · exact h
    · rcases mem_netTags c netMs cloudOk _ h with h | h | h <;>
        exact absurd h (by decide)
  · exact fun h => Or.inr (Or.inr (Or.inl ⟨h, rfl⟩))

/-- Helper: the decision component of the router, in decision-table form. -/
theorem router_fst (c : RouterCfg) (b bl cpu netMs : ℚ) (cloudOk : Bool) :
    (router c b bl cpu netMs cloudOk).1 =
      (if b < c.brightnessMin ∧ bl < c.blurVarMin then "RECORD_ONLY"
       else if (0 ≤ cpu ∧ c.cpuHighPct < cpu) ∨ bl < c.blurVarMin ∨ b < c.brightnessMin
       then "RUN_CLOUD"
       else "RUN_LOCAL") := by
  unfold router
  simp only [lb_mem_iff, blurry_mem_iff, cpu_mem_iff]
  split_ifs <;> rfl

/-- C5: the router decision is a pure, deterministic function of its
rolling-average inputs, evaluated in table order: brightness below minimum
AND blur below minimum gives RECORD_ONLY; otherwise any one of cpu_high,
blurry, low_brightness gives RUN_CLOUD; otherwise RUN_LOCAL.  The network
inputs (latency and configured flag), which only produce the advisory tags
net_unconfigured, net_down, net_slow, never change the decision. -/
theorem router_decision_table (c : RouterCfg) (b bl cpu netMs : ℚ) (cloudOk : Bool) :
    ((router c b bl cpu netMs cloudOk).1 =
      (if b < c.brightnessMin ∧ bl < c.blurVarMin then "RECORD_ONLY"
       else if (0 ≤ cpu ∧ c.cpuHighPct < cpu) ∨ bl < c.blurVarMin ∨ b < c.brightnessMin
       then "RUN_CLOUD"
       else "RUN_LOCAL")) ∧
    (∀ netMs' : ℚ, ∀ cloudOk' : Bool,
      (router c b bl cpu netMs' cloudOk').1 = (router c b bl cpu netMs cloudOk).1) := by
  refine ⟨router_fst c b bl cpu netMs cloudOk, fun netMs' cloudOk' => ?_⟩
  rw [router_fst, router_fst]

/-! ## Completion predicate (main.py, _is_complete, lines 414-428)

A result document is modelled by its status string and the list of its
detections.  Each detection carries an optional confidence value: in the
Python, a missing, null or zero value field collapses to 0.0 through
d.get with default plus the or-guard, which the getD below captures. -/

/-- Default of config key complete_confidence_thresh (main.py line 128). -/
def COMPLETE_THRESH : ℚ := 7 / 10

structure ResultDoc where
  status : String
  detections : List (Option ℚ)

/-- max of the detection values of a nonempty list, exactly the Python
max generator over detections (the default 0.0 only applies when empty). -/
def maxConf (r : ResultDoc) : ℚ :=
  match r.detections.map (fun d => d.getD 0) with
  | [] => 0
  | x :: xs => xs.foldl max x

def isComplete (thresh : ℚ) (r : ResultDoc) : Bool :=
  if r.status = "error" ∨ r.status = "pending_cloud" then false
  else if r.status = "skipped" then true
  else if r.detections = [] then true
  else decide (thresh ≤ maxConf r)

/-- C7: the completion predicate is a pure function of the result document:
status error or pending_cloud gives false; status skipped gives true; an
empty detections list gives true; otherwise it is true exactly when the
maximum detection value reaches the threshold (default 0.70). -/
theorem is_complete_spec (t : ℚ) (r : ResultDoc) :
    (r.status = "error" ∨ r.status = "pending_cloud" → isComplete t r = false) ∧
    (r.status = "skipped" → isComplete t r = true) ∧
    (r.status ≠ "error" → r.status ≠ "pending_cloud" → r.detections = [] →
      isComplete t r = true) ∧
    (r.status ≠ "error" → r.status ≠ "pending_cloud" → r.status ≠ "skipped" →
      r.detections ≠ [] → (isComplete t r = true ↔ t ≤ maxConf r)) ∧
    COMPLETE_THRESH = 7 / 10 := by
  unfold isComplete
  refine ⟨fun h => ?_, fun h => ?_, fun h1 h2 h3 => ?_, fun h1 h2 h3 h4 => ?_, rfl⟩
  · simp [h]
  · have h1 : r.status ≠ "error" := by simp [h]
    have h2 : r.status ≠ "pending_cloud" := by simp [h]
    simp [h, h1, h2]
  · simp [h1, h2, h3]
  · simp [h1, h2, h3, h4]

/-- Witness for C7: a concrete successful local result with one detection at
confidence 0.8 is complete at the default threshold. -/
theorem is_complete_spec_witness :
    isComplete COMPLETE_THRESH ⟨"ok", [some (4 / 5)]⟩ = true :=
  ((is_complete_spec COMPLETE_THRESH ⟨"ok", [some (4 / 5)]⟩).2.2.2.1
    (by decide) (by decide) (by decide) (by simp)).mpr
    (by norm_num [maxConf, COMPLETE_THRESH])

/-! ## SegmentRingBuffer (segment_buffer.py, lines 7-61)

A buffer entry is a (timestamp, path) pair; the pinned set is the list of
pinned paths (os.path.abspath is the identity in this model).  The evict
loop (lines 35-57) is embedded twice: once literally as a fuel-indexed
step function (evictStep and evictFuel: one iteration of the Python while
loop per fuel unit), and once as a structurally recursive function
(evictGo) that carries the rotated pinned entries in an accumulator; the
two are proved to agree.  File unlinks are reported in the removed list. -/

abbrev Seg := ℚ × String

structure RingState where
  keepSeconds : ℚ
  segs : List Seg
  pinned : List String
deriving DecidableEq

def pinnedB (pins : List String) (p : String) : Bool := pins.contains p

/-- pin_many (segment_buffer.py lines 21-24): add each truthy path. -/
def pin_many (st : RingState) (ps : List String) : RingState :=
  { st with pinned := st.pinned ++ ps.filter (fun p => p != "") }

/-- unpin_many (segment_buffer.py lines 26-29): discard each truthy path. -/
def unpin_many (st : RingState) (ps : List String) : RingState :=
  { st with pinned :=
      st.pinned.filter (fun q => !((ps.filter (fun p => p != "")).contains q)) }

structure EvSt where
  segs : List Seg
  removed : List String
deriving DecidableEq

inductive EvOut where
  | halt (s : EvSt)
  | step (s : EvSt)

/-- One iteration of the Python while loop in evict (lines 37-57):
halt when the deque is empty or the head is fresh (the loop condition
fails) or everything after a rotation is pinned (the break); otherwise
rotate a pinned expired head to the tail or pop an unpinned expired head. -/
def evictStep (pins : List String) (cutoff : ℚ) : EvSt → EvOut
  | ⟨[], removed⟩ => .halt ⟨[], removed⟩
  | ⟨(t, p) :: rest, removed⟩ =>
    if t < cutoff then
      if pinnedB pins p then
        if (rest ++ [(t, p)]).all (fun e => pinnedB pins e.2) then
          .halt ⟨rest ++ [(t, p)], removed⟩
        else .step ⟨rest ++ [(t, p)], removed⟩
      else .step ⟨rest, removed ++ [p]⟩
    else .halt ⟨(t, p) :: rest, removed⟩

/-- The evict loop with explicit fuel: none when the fuel runs out before
the loop exits. -/
def evictFuel (pins : List String) (cutoff : ℚ) : ℕ → EvSt → Option EvSt
  | 0, _ => none
  | n + 1, s =>
    match evictStep pins cutoff s with
    | .halt s' => some s'
    | .step s' => evictFuel pins cutoff n s'

theorem evictFuel_succ (pins : List String) (cutoff : ℚ) (n : ℕ) (s : EvSt) :
    evictFuel pins cutoff (n + 1) s =
      match evictStep pins cutoff s with
      | .halt s' => some s'
      | .step s' => evictFuel pins cutoff n s' := rfl

/-- Closed form of the evict loop: front is the not-yet-visited part of
the deque, rot the pinned entries already rotated behind it.  When front
runs out with rot nonempty, the loop rotates once more and hits the
all-pinned break. -/
def evictGo (pins : List String) (cutoff : ℚ) :
    List Seg → List Seg → List String → EvSt
  | [], [], removed => ⟨[], removed⟩
  | [], r :: rs, removed => ⟨rs ++ [r], removed⟩
  | (t, p) :: front, rot, removed =>
    if t < cutoff then
      if pinnedB pins p then
        if (front ++ rot ++ [(t, p)]).all (fun e => pinnedB pins e.2) then
          ⟨front ++ rot ++ [(t, p)], removed⟩
        else evictGo pins cutoff front (rot ++ [(t, p)]) removed
      else evictGo pins cutoff front rot (removed ++ [p])
    else ⟨(t, p) :: front ++ rot, removed⟩

/-- Helper: the fuelled loop agrees with the closed form whenever the fuel
exceeds the length of the unvisited front by two, given that every already
rotated entry is pinned and expired. -/
theorem evictFuel_eq_go (pins : List String) (cutoff : ℚ) :
    ∀ (front rot : List Seg) (removed : List String) (fuel : ℕ),
      (∀ e ∈ rot, pinnedB pins e.2 = true ∧ e.1 < cutoff) →
      front.length + 2 ≤ fuel →
      evictFuel pins cutoff fuel ⟨front ++ rot, removed⟩ =
        some (evictGo pins cutoff front rot removed) := by
  intro front
  induction front with
  | nil =>
    intro rot removed fuel hrot hfuel
    obtain ⟨n, rfl⟩ : ∃ n, fuel = n + 1 := ⟨fuel - 1, by omega⟩
    cases rot with
    | nil => rfl
    | cons r rs =>
      obtain ⟨t, p⟩ := r
      obtain ⟨hp, hc⟩ := hrot (t, p) (List.mem_cons_self _ _)
      have hall : ((rs ++ [(t, p)]).all fun e => pinnedB pins e.2) = true := by
        rw [List.all_eq_true]
        intro e he
        rcases List.mem_append.mp he with h | h
        · exact (hrot e (List.mem_cons_of_mem _ h)).1
        · rw [List.mem_singleton] at h
          subst h
          exact hp
      rw [evictFuel_succ]
      simp only [List.nil_append, evictStep, evictGo]
      rw [if_pos hc, if_pos hp, if_pos hall]
  | cons hd tl ih =>
    intro rot removed fuel hrot hfuel
    obtain ⟨t, p⟩ := hd
    obtain ⟨n, rfl⟩ : ∃ n, fuel = n + 1 := ⟨fuel - 1, by omega⟩
    simp only [List.length_cons] at hfuel
    rw [List.cons_append, evictFuel_succ]
    simp only [evictStep, evictGo, List.append_assoc]
    by_cases hc : t < cutoff
    · by_cases hp : pinnedB pins p = true
      · by_cases hall : ((tl ++ (rot ++ [(t, p)])).all fun e => pinnedB pins e.2) = true
        · rw [if_pos hc, if_pos hp, if_pos hall, if_pos hc, if_pos hp, if_pos hall]
        · rw [if_pos hc, if_pos hp, if_neg hall, if_pos hc, if_pos hp, if_neg hall]
          exact ih (rot ++ [(t, p)]) removed n
            (by
              intro e he
              rcases List.mem_append.mp he with h | h
              · exact hrot e h
              · rw [List.mem_singleton] at h
                subst h
                exact ⟨hp, hc⟩)
            (by omega)
      · rw [if_pos hc, if_neg hp, if_pos hc, if_neg hp]
        exact ih rot (removed ++ [p]) n hrot (by omega)
    · rw [if_neg hc, if_neg hc]
      rfl

/-- Helper: every entry surviving the closed-form evict loop is pinned or
fresh, provided the unvisited front is sorted by timestamp and the rotated
accumulator holds only pinned entries. -/
theorem evictGo_mem (pins : List String) (cutoff : ℚ) :
    ∀ (front rot : List Seg) (removed : List String),
      List.Pairwise (fun a b : Seg => a.1 ≤ b.1) front →
      (∀ e ∈ rot, pinnedB pins e.2 = true) →
      ∀ e ∈ (evictGo pins cutoff front rot removed).segs,
        pinnedB pins e.2 = true ∨ cutoff ≤ e.1 := by
  intro front
  induction front with
  | nil =>
    intro rot removed _ hrot e he
    cases rot with
    | nil => simp [evictGo] at he
    | cons r rs =>
      left
      simp only [evictGo] at he
      rcases List.mem_append.mp he with h | h
      · exact hrot e (List.mem_cons_of_mem _ h)
      · rw [List.mem_singleton] at h
        subst h
        exact hrot e (List.mem_cons_self _ _)
  | cons hd tl ih =>
    intro rot removed hsorted hrot e he
    obtain ⟨t, p⟩ := hd
    rw [List.pairwise_cons] at hsorted
    obtain ⟨hhd, htl⟩ := hsorted
    simp only [evictGo] at he
    split_ifs at he with hc hp hall
    · left
      rw [List.all_eq_true] at hall
      exact hall e he
    · refine ih (rot ++ [(t, p)]) removed htl ?_ e he
      intro x hx
      rcases List.mem_append.mp hx with h | h
      · exact hrot x h
      · rw [List.mem_singleton] at h
        subst h
        exact hp
    · exact ih rot (removed ++ [p]) htl hrot e he
    · rcases List.mem_cons.mp he with h | h
      · subst h
        right
        exact le_of_not_lt hc
      · rcases List.mem_append.mp h with h | h
        · right
          exact le_trans (le_of_not_lt hc) (hhd e h)
        · left
          exact hrot e h

/-- evict (segment_buffer.py lines 35-57) on a ring state at time now:
returns the new state and the list of unlinked files. -/
def evict (st : RingState) (now : ℚ) : RingState × List String :=
  let r := evictGo st.pinned (now - st.keepSeconds) st.segs [] []
  ({ st with segs := r.segs }, r.removed)

/-- add (segment_buffer.py lines 31-33): append then evict; the now
argument stands for the time.time() call inside add. -/
def add (st : RingState) (ts : ℚ) (path : String) (now : ℚ) : RingState :=
  (evict { st with segs := st.segs ++ [(ts, path)] } now).1

/-- snapshot_last (segment_buffer.py lines 59-61), entries before the
path projection; now stands for time.time(). -/
def snapshot_last_entries (st : RingState) (now seconds : ℚ) : List Seg :=
  st.segs.filter (fun e => decide (now - seconds ≤ e.1))

def snapshot_last (st : RingState) (now seconds : ℚ) : List String :=
  (snapshot_last_entries st now seconds).map Prod.snd

/-- Helper: the fuelled literal loop agrees with the evict operation used
in the rest of the development. -/
theorem evict_agrees_fuel (st : RingState) (now : ℚ) :
    evictFuel st.pinned (now - st.keepSeconds) (st.segs.length + 2) ⟨st.segs, []⟩ =
      some ⟨(evict st now).1.segs, (evict st now).2⟩ := by
  have h := evictFuel_eq_go st.pinned (now - st.keepSeconds) st.segs [] []
    (st.segs.length + 2) (by simp) (le_refl _)
  rw [List.append_nil] at h
  rw [h]
  rfl

/-- C10: the evict loop terminates for every buffer contents and pinned
set; length-plus-two fuel units always reach the loop exit. -/
theorem evict_terminates (pins : List String) (cutoff : ℚ) (segs : List Seg) :
    (evictFuel pins cutoff (segs.length + 2) ⟨segs, []⟩).isSome = true := by
  have h := evictFuel_eq_go pins cutoff segs [] [] (segs.length + 2)
    (by simp) (le_refl _)
  rw [List.append_nil] at h
  rw [h]
  rfl

/-- C6 (amended): after evict(now) on a buffer whose entries are sorted by
timestamp, every surviving entry is pinned or within the retention window;
in particular no unpinned entry with ts below now minus keep_seconds
remains. -/
theorem evict_sorted_clears_unpinned_expired (st : RingState) (now : ℚ)
    (h : List.Pairwise (fun a b : Seg => a.1 ≤ b.1) st.segs) :
    ∀ e ∈ (evict st now).1.segs,
      pinnedB st.pinned e.2 = true ∨ now - st.keepSeconds ≤ e.1 := by
  intro e he
  exact evictGo_mem st.pinned (now - st.keepSeconds) st.segs [] [] h
    (by simp) e he

/-! Concrete ring-buffer run, every step through the public operations:
two segments are added (at times 0 and 10, keep_seconds 10), the older is
pinned for an event, evict at time 15 rotates the pinned expired head to
the tail, the event ends and unpins it, and a further evict at time 15
runs with a fresh head. -/

def rbA : RingState := add ⟨10, [], []⟩ 0 "b" 0

def rbB : RingState := add rbA 10 "a" 10

def rbC : RingState := pin_many rbB ["b"]

def rbD : RingState := (evict rbC 15).1

def rbE : RingState := unpin_many rbD ["b"]

def rbF : RingState := (evict rbE 15).1

theorem rbC_eval : rbC = ⟨10, [(0, "b"), (10, "a")], ["b"]⟩ := by
  norm_num [rbC, rbB, rbA, pin_many, add, evict, evictGo, pinnedB]
  decide

theorem rbD_eval : rbD = ⟨10, [(10, "a"), (0, "b")], ["b"]⟩ := by
  rw [rbD, rbC_eval]
  norm_num [evict, evictGo, pinnedB]

theorem rbF_eval : rbF = ⟨10, [(10, "a"), (0, "b")], []⟩ := by
  rw [rbF, rbE, rbD_eval]
  norm_num [unpin_many, evict, evictGo, pinnedB]
  decide

/-- C6 counterexample: after the evict(15) call on rbE, the unpinned
entry (0, b) with timestamp below 15 - keep_seconds is still in the
buffer, because a prior evict rotated it behind a fresher entry while it
was pinned and eviction stops at the fresh head. -/
theorem evict_retains_unpinned_expired :
    ((0 : ℚ), "b") ∈ rbF.segs ∧ pinnedB rbF.pinned "b" = false ∧
      (0 : ℚ) < 15 - rbF.keepSeconds := by
  rw [rbF_eval]
  norm_num [pinnedB]

/-- Witness for C6: a sorted pinned buffer evicted at time 15; the claim
instance for the surviving expired entry (0, b), which is pinned. -/
theorem evict_sorted_clears_unpinned_expired_witness :
    pinnedB rbC.pinned "b" = true ∨ (15 : ℚ) - rbC.keepSeconds ≤ 0 :=
  evict_sorted_clears_unpinned_expired rbC 15
    (by rw [rbC_eval]; decide) ((0 : ℚ), "b")
    (by show ((0 : ℚ), "b") ∈ rbD.segs; rw [rbD_eval]; decide)

/-- C9 (amended): snapshot_last returns exactly the entries with
ts at least now - seconds, in buffer order; when the buffer is sorted by
timestamp the result is ascending by timestamp. -/
theorem snapshot_last_sorted_exact (st : RingState) (now seconds : ℚ)
    (h : List.Pairwise (fun a b : Seg => a.1 ≤ b.1) st.segs) :
    List.Pairwise (fun a b : Seg => a.1 ≤ b.1)
      (snapshot_last_entries st now seconds) ∧
    ∀ e : Seg, e ∈ snapshot_last_entries st now seconds ↔
      (e ∈ st.segs ∧ now - seconds ≤ e.1) := by
  constructor
  · exact List.Pairwise.sublist (List.filter_sublist st.segs) h
  · intro e
    simp [snapshot_last_entries, List.mem_filter]

/-- Witness for C9: on the sorted buffer rbC at time 15 with a 100 second
window, the snapshot is ascending by timestamp. -/
theorem snapshot_last_sorted_exact_witness :
    List.Pairwise (fun a b : Seg => a.1 ≤ b.1)
      (snapshot_last_entries rbC 15 100) :=
  (snapshot_last_sorted_exact rbC 15 100 (by rw [rbC_eval]; decide)).1

/-- C9 counterexample: after eviction rotated a pinned entry to the tail
(state rbD), snapshot_last with a window wide enough to include it returns
the paths out of ascending timestamp order: entry (10, a) comes before
entry (0, b). -/
theorem snapshot_last_not_ascending_after_rotation :
    snapshot_last_entries rbD 15 25 = [((10 : ℚ), "a"), ((0 : ℚ), "b")] ∧
      snapshot_last rbD 15 25 = ["a", "b"] ∧ ¬ ((10 : ℚ) ≤ (0 : ℚ)) := by
  rw [snapshot_last, snapshot_last_entries, rbD_eval]
  norm_num

/-! ## Finalize and analysis worker traces (main.py)

The per-package on-disk effects are modelled as an action trace.  One
package directory under events/final/<event_id>/ is written by exactly
two code paths: the finalize step of capture_loop (main.py lines
1151-1222) and, when a job was enqueued there, the analysis_worker
iteration for that job (main.py lines 478-591).  concat_mp4 returns true
only after ffmpeg produced clip.mp4 (segment_buffer.py lines 64-151), so
the concat-succeeded branch is modelled as a clip.mp4 write;
make_browser_ready re-encodes clip.mp4 in place through an atomic replace
and keeps the source file on failure (h264_postprocess.py lines 16-51),
so the clip.mp4 write is not undone. -/

inductive FsAct where
  | mkdirPkg
  | writeFile (name : String)
  | appendLog
  | enqueueAnalysis
  | unpin (group : String)
  | setState (s : String)
deriving DecidableEq

/-- Effects of the finalize step (capture_loop, main.py lines 1151-1222)
in source order, as a function of whether concat_mp4 succeeded (line 1167)
and whether _analysis_q was full at the put_nowait call (line 1195):
makedirs at line 1161 runs before the concat attempt; on concat success
incident.json (line 1187), the event-log line (line 1188) and either the
enqueue or, on a full queue, an immediate DONE (line 1206) follow; the
three unpin calls (lines 1213-1215) and the reset to idle (line 1218) run
on both branches. -/
def finalizeActs (concatOk queueFull : Bool) : List FsAct :=
  [.mkdirPkg] ++
  (if concatOk then
    [.writeFile "clip.mp4", .writeFile "incident.json", .appendLog] ++
    (if queueFull then [.writeFile "DONE"] else [.enqueueAnalysis])
   else []) ++
  [.unpin "preroll", .unpin "active", .unpin "postroll", .setState "idle"]

/-- File names written inside the package directory by one analysis_worker
iteration that raises no exception (main.py lines 490-567): result.json
(line 524), incident.json re-written (line 548), then the markers: DONE
alone when complete (line 553), DONE followed by NEEDS_CLOUD when
incomplete (lines 558-559). -/
def workerNormalWrites (complete : Bool) : List String :=
  ["result.json", "incident.json"] ++
  (if complete then ["DONE"] else ["DONE", "NEEDS_CLOUD"])

/-- File names written by one analysis_worker iteration; exc models an
exception raised inside the try block after k of the normal writes
completed, followed by the two individually guarded writes of the handler
(main.py lines 569-587): the synthesized error result.json and the final
DONE, each of which may itself fail. -/
def workerWrites (complete : Bool) (exc : Option (ℕ × Bool × Bool)) :
    List String :=
  match exc with
  | none => workerNormalWrites complete
  | some (k, failOk, doneOk) =>
    (workerNormalWrites complete).take k ++
    (if failOk then ["result.json"] else []) ++
    (if doneOk then ["DONE"] else [])

/-- The file writes that land in one package directory over its lifetime:
the finalize-step writes followed, exactly when finalize enqueued a job,
by the analysis-worker writes for that job. -/
def packageWrites (concatOk queueFull complete : Bool)
    (exc : Option (ℕ × Bool × Bool)) : List String :=
  (finalizeActs concatOk queueFull).filterMap
    (fun a => match a with | .writeFile n => some n | _ => none) ++
  (if (finalizeActs concatOk queueFull).contains .enqueueAnalysis then
    workerWrites complete exc
   else [])

/-- Helper: a failed concat produces no file write at all in the package. -/
theorem packageWrites_concat_failed (queueFull complete : Bool)
    (exc : Option (ℕ × Bool × Bool)) :
    packageWrites false queueFull complete exc = [] := rfl

/-- Helper: with concat succeeded and the queue full, the package receives
exactly clip.mp4, incident.json, DONE. -/
theorem packageWrites_queue_full (complete : Bool)
    (exc : Option (ℕ × Bool × Bool)) :
    packageWrites true true complete exc =
      ["clip.mp4", "incident.json", "DONE"] := rfl

/-- Helper: with concat succeeded and a job enqueued, the package trace is
clip.mp4, incident.json, then the worker writes. -/
theorem packageWrites_enqueued (complete : Bool)
    (exc : Option (ℕ × Bool × Bool)) :
    packageWrites true false complete exc =
      "clip.mp4" :: "incident.json" :: workerWrites complete exc := rfl

/-- Helper: in a trace starting with clip.mp4 and incident.json, any
prefix containing DONE contains both of them. -/
theorem take_head_clip_incident (rest : List String) (n : ℕ)
    (h : "DONE" ∈ ("clip.mp4" :: "incident.json" :: rest).take n) :
    "clip.mp4" ∈ ("clip.mp4" :: "incident.json" :: rest).take n ∧
    "incident.json" ∈ ("clip.mp4" :: "incident.json" :: rest).take n := by
  match n with
  | 0 => simp at h
  | 1 => simp at h
  | n + 2 =>
    constructor
    · simp [List.take_succ_cons]
    · simp [List.take_succ_cons]

/-- C2: at every point of a package lifetime (every prefix of the write
trace, over all outcomes of concat, queue backpressure, completion and
worker exceptions, the exception path included), if DONE has been written
then clip.mp4 and incident.json have been written before it. -/
theorem done_implies_clip_incident (concatOk queueFull complete : Bool)
    (exc : Option (ℕ × Bool × Bool)) (n : ℕ)
    (h : "DONE" ∈ (packageWrites concatOk queueFull complete exc).take n) :
    "clip.mp4" ∈ (packageWrites concatOk queueFull complete exc).take n ∧
    "incident.json" ∈ (packageWrites concatOk queueFull complete exc).take n := by
  cases concatOk with
  | false =>
    rw [packageWrites_concat_failed] at h
    simp at h
  | true =>
    cases queueFull with
    | false =>
      rw [packageWrites_enqueued] at h ⊢
      exact take_head_clip_incident _ n h
    | true =>
      rw [packageWrites_queue_full] at h ⊢
      exact take_head_clip_incident ["DONE"] n (by simpa using h)

/-- Witness for C2: the queue-full package trace, whole-trace prefix. -/
theorem done_implies_clip_incident_witness :
    "clip.mp4" ∈ (packageWrites true true true none).take 3 ∧
    "incident.json" ∈ (packageWrites true true true none).take 3 :=
  done_implies_clip_incident true true true none 3 (by decide)

/-- C8: when the analysis queue is full at a finalize whose concat
succeeded, the package is still created with clip.mp4 and incident.json,
DONE is written immediately (and last) without inference, no analysis job
is enqueued, and the event-log line is still appended. -/
theorem queue_full_still_done :
    (∀ (complete : Bool) (exc : Option (ℕ × Bool × Bool)),
      packageWrites true true complete exc =
        ["clip.mp4", "incident.json", "DONE"]) ∧
    FsAct.enqueueAnalysis ∉ finalizeActs true true ∧
    FsAct.mkdirPkg ∈ finalizeActs true true ∧
    FsAct.appendLog ∈ finalizeActs true true :=
  ⟨fun _ _ => rfl, by decide, by decide, by decide⟩

/-- C4 counterexample: when concat fails at finalize, the package
directory has already been created: os.makedirs at main.py line 1161 runs
before concat_mp4 at line 1167, refuting that no package directory is
created for the event. -/
theorem concat_failure_creates_pkg_dir :
    FsAct.mkdirPkg ∈ finalizeActs false false := by decide

/-- C4 (amended): if concat fails at finalize, the event is discarded
except that the already-created (empty) package directory remains: no file
is written in the package, no event-log line is appended, no analysis job
is enqueued, all three pin lists are unpinned, and the FSM returns to
idle. -/
theorem concat_failure_discards_event (queueFull complete : Bool)
    (exc : Option (ℕ × Bool × Bool)) :
    packageWrites false queueFull complete exc = [] ∧
    FsAct.appendLog ∉ finalizeActs false queueFull ∧
    FsAct.enqueueAnalysis ∉ finalizeActs false queueFull ∧
    FsAct.unpin "preroll" ∈ finalizeActs false queueFull ∧
    FsAct.unpin "active" ∈ finalizeActs false queueFull ∧
    FsAct.unpin "postroll" ∈ finalizeActs false queueFull ∧
    FsAct.setState "idle" ∈ finalizeActs false queueFull ∧
    FsAct.mkdirPkg ∈ finalizeActs false queueFull := by
  cases queueFull <;>
    exact ⟨rfl, by decide, by decide, by decide, by decide, by decide,
      by decide, by decide⟩

/-- C1: evaluating the analysis worker on an incomplete package (decision
RUN_CLOUD, or a local result below the completion threshold): the writes
are result.json, incident.json, DONE, NEEDS_CLOUD in that order, so DONE
is written before NEEDS_CLOUD (main.py lines 558-559) and NEEDS_CLOUD,
not DONE, is the last file written in the package. -/
theorem done_written_before_needs_cloud :
    workerWrites false none =
      ["result.json", "incident.json", "DONE", "NEEDS_CLOUD"] ∧
    (workerWrites false none).indexOf "DONE" <
      (workerWrites false none).indexOf "NEEDS_CLOUD" :=
  ⟨rfl, by decide⟩

/-! ## Event FSM (capture_loop, main.py lines 1095-1222)

Per-frame inputs are the motion flag and the frame timestamp ts.  The
streak update and the four transition blocks run sequentially in source
order on the mutable loop variables; the embedding threads a state record
through stage functions in the same order.  Only the fields that the
transitions read are modelled (the per-event motion statistics other than
event_frames, the pinned segment lists and the router snapshot taken at
event start do not feed back into the transitions).  A finalized event is
recorded as its (started_at, ended_at) pair.  MAX_EVENT_SEC (main.py line
110) is read from the config but is used only in the retention window
RING_KEEP_SEC (line 111); no transition below consults it, because none
in the source does. -/

structure FsmCfg where
  eventOnFrames : ℕ
  eventOffSeconds : ℚ
  postrollSeconds : ℚ
  maxEventSeconds : ℚ
  targetFps : ℚ

inductive EState where
  | idle
  | active
  | postroll
deriving DecidableEq

@[simp] theorem EState.idle_ne_active : EState.idle ≠ EState.active := by decide

@[simp] theorem EState.idle_ne_postroll : EState.idle ≠ EState.postroll := by decide

@[simp] theorem EState.active_ne_idle : EState.active ≠ EState.idle := by decide

@[simp] theorem EState.active_ne_postroll : EState.active ≠ EState.postroll := by decide

@[simp] theorem EState.postroll_ne_idle : EState.postroll ≠ EState.idle := by decide

@[simp] theorem EState.postroll_ne_active : EState.postroll ≠ EState.active := by decide

structure FsmState where
  state : EState
  evtStart : ℚ
  postrollUntil : ℚ
  motionStreak : ℕ
  lastMotionTs : ℚ
  eventFrames : ℕ
  finalized : List (ℚ × ℚ)
deriving DecidableEq

/-- motion_streak update (main.py lines 1095-1099); Nat subtraction is the
max(0, streak - 1) of the source. -/
def stepStreak (s : FsmState) (motion : Bool) (ts : ℚ) : FsmState :=
  if motion then { s with motionStreak := s.motionStreak + 1, lastMotionTs := ts }
  else { s with motionStreak := s.motionStreak - 1 }

/-- idle to active (main.py lines 1104-1127): set the event start and
reset the per-event counters. -/
def stepActivate (c : FsmCfg) (s : FsmState) (ts : ℚ) : FsmState :=
  if s.state = .idle ∧ c.eventOnFrames ≤ s.motionStreak then
    { s with state := .active, evtStart := ts, postrollUntil := 0,
             eventFrames := 0 }
  else s

/-- Stat accumulation while active (main.py lines 1130-1137); only
event_frames feeds the safety-bound claim. -/
def stepAccum (s : FsmState) : FsmState :=
  if s.state = .active then { s with eventFrames := s.eventFrames + 1 } else s

/-- postroll back to active on retrigger (main.py lines 1140-1142). -/
def stepRetrigger (c : FsmCfg) (s : FsmState) : FsmState :=
  if s.state = .postroll ∧ c.eventOnFrames ≤ s.motionStreak then
    { s with state := .active }
  else s

/-- active to postroll after a quiet period (main.py lines 1145-1148). -/
def stepToPostroll (c : FsmCfg) (s : FsmState) (ts : ℚ) : FsmState :=
  if s.state = .active ∧ c.eventOffSeconds ≤ ts - s.lastMotionTs then
    { s with state := .postroll, postrollUntil := ts + c.postrollSeconds }
  else s

/-- postroll to finalize to idle on timer expiry (main.py lines
1151-1222): record the (started_at, ended_at) pair and reset. -/
def stepFinalize (s : FsmState) (ts : ℚ) : FsmState :=
  if s.state = .postroll ∧ s.postrollUntil ≤ ts then
    { s with state := .idle, postrollUntil := 0,
             finalized := s.finalized ++ [(s.evtStart, ts)] }
  else s

def fsmStep (c : FsmCfg) (s : FsmState) (motion : Bool) (ts : ℚ) : FsmState :=
  stepFinalize
    (stepToPostroll c
      (stepRetrigger c (stepAccum (stepActivate c (stepStreak s motion ts) ts)))
      ts)
    ts

def initFsm : FsmState := ⟨.idle, 0, 0, 0, 0, 0, []⟩

def runFsm (c : FsmCfg) (trace : List (Bool × ℚ)) : FsmState :=
  trace.foldl (fun s mt => fsmStep c s mt.1 mt.2) initFsm

/-- The invariant threaded through a run: if an event is open its start
time is at most the current time, and every recorded event is ordered. -/
def fsmInv (s : FsmState) (t : ℚ) : Prop :=
  (s.state ≠ .idle → s.evtStart ≤ t) ∧ ∀ pr ∈ s.finalized, pr.1 ≤ pr.2

/-- Helper: the invariant is monotone in the time bound. -/
theorem fsmInv_mono {s : FsmState} {t t' : ℚ} (h : t ≤ t') (hs : fsmInv s t) :
    fsmInv s t' :=
  ⟨fun hne => le_trans (hs.1 hne) h, hs.2⟩

/-- Helper: the streak update preserves the invariant. -/
theorem stepStreak_inv {s : FsmState} {t : ℚ} (m : Bool) (ts : ℚ)
    (h : fsmInv s t) : fsmInv (stepStreak s m ts) t := by
  unfold stepStreak
  split_ifs <;> exact ⟨h.1, h.2⟩

/-- Helper: arming an event at the current frame time preserves the
invariant. -/
theorem stepActivate_inv (c : FsmCfg) {s : FsmState} {t : ℚ}
    (h : fsmInv s t) : fsmInv (stepActivate c s t) t := by
  unfold stepActivate
  split_ifs
  · exact ⟨fun _ => le_refl t, h.2⟩
  · exact h

/-- Helper: stat accumulation preserves the invariant. -/
theorem stepAccum_inv {s : FsmState} {t : ℚ} (h : fsmInv s t) :
    fsmInv (stepAccum s) t := by
  unfold stepAccum
  split_ifs <;> exact ⟨h.1, h.2⟩

/-- Helper: the retrigger transition preserves the invariant. -/
theorem stepRetrigger_inv (c : FsmCfg) {s : FsmState} {t : ℚ}
    (h : fsmInv s t) : fsmInv (stepRetrigger c s) t := by
  unfold stepRetrigger
  split_ifs with hcond
  · exact ⟨fun _ => h.1 (by simp [hcond.1]), h.2⟩
  · exact h

/-- Helper: entering postroll preserves the invariant. -/
theorem stepToPostroll_inv (c : FsmCfg) {s : FsmState} {t : ℚ}
    (h : fsmInv s t) : fsmInv (stepToPostroll c s t) t := by
  unfold stepToPostroll
  split_ifs with hcond
  · exact ⟨fun _ => h.1 (by simp [hcond.1]), h.2⟩
  · exact h

/-- Helper: finalizing records an ordered pair and preserves the
invariant. -/
theorem stepFinalize_inv {s : FsmState} {t : ℚ} (h : fsmInv s t) :
    fsmInv (stepFinalize s t) t := by
  unfold stepFinalize
  split_ifs with hcond
  · refine ⟨fun hne => absurd rfl hne, ?_⟩
    intro pr hpr
    rcases List.mem_append.mp hpr with hm | hm
    · exact h.2 pr hm
    · rw [List.mem_singleton] at hm
      subst hm
      exact h.1 (by simp [hcond.1])
  · exact h

/-- Helper: one frame of the FSM preserves the invariant at the frame
time. -/
theorem fsmStep_inv (c : FsmCfg) (s : FsmState) (m : Bool) (t : ℚ)
    (h : fsmInv s t) : fsmInv (fsmStep c s m t) t :=
  stepFinalize_inv
    (stepToPostroll_inv c
      (stepRetrigger_inv c
        (stepAccum_inv (stepActivate_inv c (stepStreak_inv m t h)))))

/-- Helper: running the FSM from an invariant state over a time-ordered
trace keeps every finalized pair ordered. -/
theorem fsm_run_inv (c : FsmCfg) :
    ∀ (tr : List (Bool × ℚ)) (s : FsmState) (t0 : ℚ),
      fsmInv s t0 → List.Chain (· ≤ ·) t0 (tr.map Prod.snd) →
      ∀ pr ∈ (tr.foldl (fun s mt => fsmStep c s mt.1 mt.2) s).finalized,
        pr.1 ≤ pr.2 := by
  intro tr
  induction tr with
  | nil => exact fun s t0 hinv _ => hinv.2
  | cons mt rest ih =>
    intro s t0 hinv hch
    obtain ⟨m, t⟩ := mt
    rw [List.map_cons, List.chain_cons] at hch
    obtain ⟨ht0, hch⟩ := hch
    rw [List.foldl_cons]
    exact ih (fsmStep c s m t) t (fsmStep_inv c s m t (fsmInv_mono ht0 hinv)) hch

/-- C3 (amended): for every finalized event of a run over a trace with
nondecreasing timestamps, started_at is at most ended_at.  (No
max_event_seconds bound holds: the transitions never consult it, see the
counterexample.) -/
theorem fsm_finalized_start_le_end (c : FsmCfg) (trace : List (Bool × ℚ))
    (hsort : List.Chain' (· ≤ ·) (trace.map Prod.snd)) :
    ∀ pr ∈ (runFsm c trace).finalized, pr.1 ≤ pr.2 := by
  cases trace with
  | nil =>
    intro pr hpr
    simp [runFsm, initFsm] at hpr
  | cons mt rest =>
    rw [runFsm, List.foldl_cons]
    refine fsm_run_inv c rest (fsmStep c initFsm mt.1 mt.2) mt.2 ?_ ?_
    · exact fsmStep_inv c initFsm mt.1 mt.2
        ⟨fun h => absurd rfl h, by simp [initFsm]⟩
    · rw [List.map_cons] at hsort
      exact hsort

/-! Concrete run refuting the safety bound: config with event_on_frames 3,
event_off_seconds 100, postroll_seconds 1, max_event_seconds 2,
target_fps 1; ten motion frames at times 0..9 arm an event at time 2, a
long quiet gap then runs the retrigger decay until the postroll timer
finally expires at time 117.  The per-frame states are evaluated one step
at a time. -/

def cfg3 : FsmCfg := ⟨3, 100, 1, 2, 1⟩

def trace3 : List (Bool × ℚ) :=
  [(true, 0), (true, 1), (true, 2), (true, 3), (true, 4), (true, 5),
   (true, 6), (true, 7), (true, 8), (true, 9), (false, 110), (false, 111),
   (false, 112), (false, 113), (false, 114), (false, 115), (false, 116),
   (false, 117)]

theorem t3e1 : fsmStep cfg3 initFsm true 0 = ⟨.idle, 0, 0, 1, 0, 0, []⟩ := by
  norm_num [fsmStep, stepStreak, stepActivate, stepAccum, stepRetrigger,
    stepToPostroll, stepFinalize, initFsm, cfg3]

theorem t3e2 : fsmStep cfg3 ⟨.idle, 0, 0, 1, 0, 0, []⟩ true 1 =
    ⟨.idle, 0, 0, 2, 1, 0, []⟩ := by
  norm_num [fsmStep, stepStreak, stepActivate, stepAccum, stepRetrigger,
    stepToPostroll, stepFinalize, cfg3]

theorem t3e3 : fsmStep cfg3 ⟨.idle, 0, 0, 2, 1, 0, []⟩ true 2 =
    ⟨.active, 2, 0, 3, 2, 1, []⟩ := by
  norm_num [fsmStep, stepStreak, stepActivate, stepAccum, stepRetrigger,
    stepToPostroll, stepFinalize, cfg3]

theorem t3e4 : fsmStep cfg3 ⟨.active, 2, 0, 3, 2, 1, []⟩ true 3 =
    ⟨.active, 2, 0, 4, 3, 2, []⟩ := by
  norm_num [fsmStep, stepStreak, stepActivate, stepAccum, stepRetrigger,
    stepToPostroll, stepFinalize, cfg3]

theorem t3e5 : fsmStep cfg3 ⟨.active, 2, 0, 4, 3, 2, []⟩ true 4 =
    ⟨.active, 2, 0, 5, 4, 3, []⟩ := by
  norm_num [fsmStep, stepStreak, stepActivate, stepAccum, stepRetrigger,
    stepToPostroll, stepFinalize, cfg3]

theorem t3e6 : fsmStep cfg3 ⟨.active, 2, 0, 5, 4, 3, []⟩ true 5 =
    ⟨.active, 2, 0, 6, 5, 4, []⟩ := by
  norm_num [fsmStep, stepStreak, stepActivate, stepAccum, stepRetrigger,
    stepToPostroll, stepFinalize, cfg3]

theorem t3e7 : fsmStep cfg3 ⟨.active, 2, 0, 6, 5, 4, []⟩ true 6 =
    ⟨.active, 2, 0, 7, 6, 5, []⟩ := by
  norm_num [fsmStep, stepStreak, stepActivate, stepAccum, stepRetrigger,
    stepToPostroll, stepFinalize, cfg3]

theorem t3e8 : fsmStep cfg3 ⟨.active, 2, 0, 7, 6, 5, []⟩ true 7 =
    ⟨.active, 2, 0, 8, 7, 6, []⟩ := by
  norm_num [fsmStep, stepStreak, stepActivate, stepAccum, stepRetrigger,
    stepToPostroll, stepFinalize, cfg3]

theorem t3e9 : fsmStep cfg3 ⟨.active, 2, 0, 8, 7, 6, []⟩ true 8 =
    ⟨.active, 2, 0, 9, 8, 7, []⟩ := by
  norm_num [fsmStep, stepStreak, stepActivate, stepAccum, stepRetrigger,
    stepToPostroll, stepFinalize, cfg3]

theorem t3e10 : fsmStep cfg3 ⟨.active, 2, 0, 9, 8, 7, []⟩ true 9 =
    ⟨.active, 2, 0, 10, 9, 8, []⟩ := by
  norm_num [fsmStep, stepStreak, stepActivate, stepAccum, stepRetrigger,
    stepToPostroll, stepFinalize, cfg3]

theorem t3e11 : fsmStep cfg3 ⟨.active, 2, 0, 10, 9, 8, []⟩ false 110 =
    ⟨.postroll, 2, 111, 9, 9, 9, []⟩ := by
  norm_num [fsmStep, stepStreak, stepActivate, stepAccum, stepRetrigger,
    stepToPostroll, stepFinalize, cfg3]

theorem t3e12 : fsmStep cfg3 ⟨.postroll, 2, 111, 9, 9, 9, []⟩ false 111 =
    ⟨.postroll, 2, 112, 8, 9, 9, []⟩ := by
  norm_num [fsmStep, stepStreak, stepActivate, stepAccum, stepRetrigger,
    stepToPostroll, stepFinalize, cfg3]

theorem t3e13 : fsmStep cfg3 ⟨.postroll, 2, 112, 8, 9, 9, []⟩ false 112 =
    ⟨.postroll, 2, 113, 7, 9, 9, []⟩ := by
  norm_num [fsmStep, stepStreak, stepActivate, stepAccum, stepRetrigger,
    stepToPostroll, stepFinalize, cfg3]

theorem t3e14 : fsmStep cfg3 ⟨.postroll, 2, 113, 7, 9, 9, []⟩ false 113 =
    ⟨.postroll, 2, 114, 6, 9, 9, []⟩ := by
  norm_num [fsmStep, stepStreak, stepActivate, stepAccum, stepRetrigger,
    stepToPostroll, stepFinalize, cfg3]

theorem t3e15 : fsmStep cfg3 ⟨.postroll, 2, 114, 6, 9, 9, []⟩ false 114 =
    ⟨.postroll, 2, 115, 5, 9, 9, []⟩ := by
  norm_num [fsmStep, stepStreak, stepActivate, stepAccum, stepRetrigger,
    stepToPostroll, stepFinalize, cfg3]

theorem t3e16 : fsmStep cfg3 ⟨.postroll, 2, 115, 5, 9, 9, []⟩ false 115 =
    ⟨.postroll, 2, 116, 4, 9, 9, []⟩ := by
  norm_num [fsmStep, stepStreak, stepActivate, stepAccum, stepRetrigger,
    stepToPostroll, stepFinalize, cfg3]

theorem t3e17 : fsmStep cfg3 ⟨.postroll, 2, 116, 4, 9, 9, []⟩ false 116 =
    ⟨.postroll, 2, 117, 3, 9, 9, []⟩ := by
  norm_num [fsmStep, stepStreak, stepActivate, stepAccum, stepRetrigger,
    stepToPostroll, stepFinalize, cfg3]

theorem t3e18 : fsmStep cfg3 ⟨.postroll, 2, 117, 3, 9, 9, []⟩ false 117 =
    ⟨.idle, 2, 0, 2, 9, 9, [(2, 117)]⟩ := by
  norm_num [fsmStep, stepStreak, stepActivate, stepAccum, stepRetrigger,
    stepToPostroll, stepFinalize, cfg3]

theorem trace3_mid_eval :
    runFsm cfg3 (trace3.take 10) = ⟨.active, 2, 0, 10, 9, 8, []⟩ := by
  rw [runFsm, trace3]
  simp only [List.take, List.foldl_cons, List.foldl_nil]
  rw [t3e1, t3e2, t3e3, t3e4, t3e5, t3e6, t3e7, t3e8, t3e9, t3e10]

theorem trace3_final_eval :
    runFsm cfg3 trace3 = ⟨.idle, 2, 0, 2, 9, 9, [(2, 117)]⟩ := by
  rw [runFsm, trace3]
  simp only [List.foldl_cons, List.foldl_nil]
  rw [t3e1, t3e2, t3e3, t3e4, t3e5, t3e6, t3e7, t3e8, t3e9, t3e10, t3e11,
    t3e12, t3e13, t3e14, t3e15, t3e16, t3e17, t3e18]

/-- C3 counterexample: under cfg3, after the ten motion frames the event
has accumulated event_frames x (1/target_fps) = 8 seconds, above
max_event_seconds = 2, yet the FSM is still in active (no postroll was
forced); the event finally finalizes as (2, 117), whose duration 115
exceeds max_event_seconds + postroll_seconds + 10. -/
theorem fsm_no_max_event_bound :
    ((runFsm cfg3 (trace3.take 10)).state = EState.active ∧
     ¬ (((runFsm cfg3 (trace3.take 10)).eventFrames : ℚ) *
          (1 / cfg3.targetFps) ≤ cfg3.maxEventSeconds)) ∧
    (runFsm cfg3 trace3).finalized = [(2, 117)] ∧
    ¬ ((117 : ℚ) - 2 ≤ cfg3.maxEventSeconds + cfg3.postrollSeconds + 10) := by
  rw [trace3_mid_eval, trace3_final_eval]
  norm_num [cfg3]

/-- Witness for C3: the finalized event of the concrete run, with its
ordered endpoints obtained from the amended theorem. -/
theorem fsm_finalized_start_le_end_witness :
    ((2 : ℚ), (117 : ℚ)) ∈ (runFsm cfg3 trace3).finalized ∧ (2 : ℚ) ≤ 117 := by
  have hmem : ((2 : ℚ), (117 : ℚ)) ∈ (runFsm cfg3 trace3).finalized := by
    rw [trace3_final_eval]
    decide
  exact ⟨hmem, fsm_finalized_start_le_end cfg3 trace3
    (by rw [trace3]; norm_num [List.chain'_cons, List.chain'_singleton]) _ hmem⟩

end SentinelQ
